import Mathlib

/-!
Verification of the article-relevance ranking pipeline of
`agent_module/agent.py`: the content extractor `get_article_content`
(lines 23-69), the scorer `fetch_article_content` (lines 71-132) and the
orchestrator `fetch_and_filter_articles` (lines 135-224).

Network effects (feed parsing, article downloads) are modelled as oracle
parameters; a raised exception is an `Except.error`.  Timestamps
(`time.struct_time` values, compared chronologically and converted with
`time.mktime`) are epoch seconds in `Int`.  A missing dictionary key and
a `None` value are both `Option.none` (feedparser omits keys it could
not parse).  All feed data handled by the agent is ASCII text, so
Python's `str.lower` is character-wise lowering.
-/

namespace NewsAgent

/-! ## Python string primitives -/

/-- Python `str.lower`, character-wise ASCII lowering. -/
def pyLower (s : String) : String := String.mk (s.toList.map Char.toLower)

/-- Word accumulator for `pySplit`: `cur` holds the current word
reversed. -/
def wsplit : List Char → List Char → List String
  | cur, [] => if cur = [] then [] else [String.mk cur.reverse]
  | cur, c :: rest =>
    if c.isWhitespace then
      if cur = [] then wsplit [] rest
      else String.mk cur.reverse :: wsplit [] rest
    else wsplit (c :: cur) rest

/-- Python `str.split()` with no separator: split on whitespace runs,
dropping empty fragments. -/
def pySplit (s : String) : List String := wsplit [] s.toList

/-- Fuelled scan for non-overlapping occurrences of a non-empty needle,
left to right, skipping past each match (the scan CPython's `str.count`
performs).  The fuel starts at the haystack length, which bounds the
number of steps. -/
def cntAux (nd : List Char) : Nat → List Char → Nat
  | 0, _ => 0
  | _ + 1, [] => 0
  | fuel + 1, c :: t =>
    if nd.isPrefixOf (c :: t) then 1 + cntAux nd fuel ((c :: t).drop nd.length)
    else cntAux nd fuel t

/-- Python `str.count`: non-overlapping occurrences; CPython counts the
empty needle `len + 1` times. -/
def pyCount (hay nd : String) : Nat :=
  if nd = "" then hay.length + 1
  else cntAux nd.toList hay.toList.length hay.toList

/-! ## Data model: feed entries and scored articles -/

/-- A feed entry's `content` field is either a plain string or a list of
fragments, depending on the feed (agent.py lines 76-80 branch on the
runtime type). -/
inductive ContentField
  | str (s : String)
  | fragments (items : List String)
  deriving DecidableEq

/-- A feedparser entry as consumed by the agent.  `none` models an
absent key. -/
structure Entry where
  title : Option String
  content : Option ContentField
  link : Option String
  published_parsed : Option Int
  updated_parsed : Option Int
  deriving DecidableEq

/-- The dict built at agent.py lines 120-131 for a matching article. -/
structure Article where
  title : String
  content : String
  link : String
  publish_date : Option Int
  relevance_score : Nat
  title_matches : Nat
  content_matches : Nat
  recency_bonus : Nat
  deriving DecidableEq

/-- `" ".join(str(item) for item in content)` when the content field is
a list; the string itself otherwise (lines 77-80). -/
def normalizeContent : ContentField → String
  | .str s => s
  | .fragments items => String.intercalate " " items

/-- `entry.get("link")` combined with Python truthiness: an absent link
and an empty-string link are both falsy (`if not link`, lines 85 and
203). -/
def getLink (e : Entry) : Option String :=
  match e.link with
  | some l => if l = "" then none else some l
  | none => none

/-- `entry.get('published_parsed') or entry.get('updated_parsed')`
(line 83); a `struct_time` is always truthy, so `or` picks the first
present field.  Line 195's
`x.get('published_parsed', x.get('updated_parsed'))` has the same
value, since feedparser omits the key rather than storing `None`. -/
def publishDate (e : Entry) : Option Int :=
  e.published_parsed <|> e.updated_parsed

/-! ## Content extractor: `get_article_content` (lines 23-69) -/

/-- Outcome of the requests + BeautifulSoup fallback fetch: the text of
each matching content selector (in the order of the `selectors` list,
`none` for a selector with no match) and the joined paragraph text. -/
structure ScrapeResult where
  selectorTexts : List (Option String)
  paragraphText : String
  deriving DecidableEq

/-- The selector loop of lines 53-58: first selector hit whose text
exceeds the 100-character substance threshold; a matching selector with
short text is skipped and the loop continues. -/
def firstGoodSelector : List (Option String) → Option String
  | [] => none
  | none :: rest => firstGoodSelector rest
  | some t :: rest => if 100 < t.length then some t else firstGoodSelector rest

/-- `get_article_content(url)`.  `primary` is the newspaper3k
download + parse outcome, `scrape` the requests + BeautifulSoup outcome;
an `Except.error` is a raised exception, which the enclosing `try` of
lines 25-67 converts to the empty string (so an exception raised during
either fetch skips every later strategy). -/
def get_article_content (primary : Except Unit String)
    (scrape : Except Unit ScrapeResult) : String :=
  match primary with
  | .error _ => ""
  | .ok content =>
    if content ≠ "" ∧ 100 < content.length then content
    else
      match scrape with
      | .error _ => ""
      | .ok r =>
        match firstGoodSelector r.selectorTexts with
        | some t => t
        | none =>
          if r.paragraphText ≠ "" ∧ 100 < r.paragraphText.length then
            r.paragraphText
          else ""

/-! ## Relevance scorer: `fetch_article_content` (lines 71-132) -/

/-- `entry.get("title", "")` (line 73). -/
def titleOf (e : Entry) : String := e.title.getD ""

/-- The normalized `initial_content` of lines 76-80. -/
def initialContentOf (e : Entry) : String :=
  normalizeContent (e.content.getD (.str ""))

/-- Lines 99-101: the extracted content, falling back to the entry's own
content field when extraction produced the empty string.  `oracle link`
is the value `get_article_content(link)` returned for this run. -/
def finalContentOf (oracle : String → String) (link : String) (e : Entry) :
    String :=
  if oracle link = "" then initialContentOf e else oracle link

/-- Sum over the keywords of case-insensitive occurrence counts in a
text (the loops of lines 95-96 and 105-106 accumulate exactly this). -/
def keywordHits (text : String) (keywords : List String) : Nat :=
  (keywords.map fun k => pyCount (pyLower text) k).sum

/-- The title loop of lines 95-96: each keyword occurrence in the
lowered title is worth 10 points. -/
def titleScoreOf (e : Entry) (keywords : List String) : Nat :=
  (keywords.map fun k => pyCount (pyLower (titleOf e)) k * 10).sum

/-- Lines 109-114: recency bonus from the article age in hours;
`age_hours < 24` on real-valued hours is exactly `now - t < 86400` on
integer seconds, and `age_hours < 168` is `now - t < 604800`. -/
def recencyScoreOf (now : Int) (e : Entry) : Nat :=
  match publishDate e with
  | none => 0
  | some t =>
    if now - t < 86400 then 5
    else if now - t < 604800 then 3
    else 0

/-- `total_score` of line 117, given the entry's (truthy) link. -/
def totalScoreOf (oracle : String → String) (now : Int) (entry : Entry)
    (keywords : List String) (link : String) : Nat :=
  titleScoreOf entry keywords +
    keywordHits (finalContentOf oracle link entry) keywords +
    recencyScoreOf now entry

/-- `fetch_article_content(entry, keywords)` (lines 71-132): `none` when
the entry lacks a (truthy) link or the total score is not positive;
otherwise the scored-article dict (`title_matches` is
`title_score // 10`, line 127).  `now` is `time.time()`. -/
def fetch_article_content (oracle : String → String) (now : Int)
    (entry : Entry) (keywords : List String) : Option Article :=
  match getLink entry with
  | none => none
  | some link =>
    if 0 < totalScoreOf oracle now entry keywords link then
      some
        { title := titleOf entry
          content := finalContentOf oracle link entry
          link := link
          publish_date := publishDate entry
          relevance_score := totalScoreOf oracle now entry keywords link
          title_matches := titleScoreOf entry keywords / 10
          content_matches := keywordHits (finalContentOf oracle link entry) keywords
          recency_bonus := recencyScoreOf now entry }
    else none

/-! ## Sorting model

Python's `list.sort` / `sorted` with `reverse=True` is a stable
descending sort: equal elements keep their original order.  A comparison
between incomparable values raises `TypeError`.  For lists of fewer than
64 elements (always the case here: at most 15 entries per feed window)
CPython runs a binary insertion sort in which every element takes part
in at least one comparison, so a `None` sort key among two or more
elements always raises. -/

/-- Stable insert for a descending sort: `x` (arriving later) goes
before the first element it is not strictly below, hence after all
earlier elements with an equal key. -/
def insertD (lt : α → α → Bool) (x : α) : List α → List α
  | [] => [x]
  | y :: ys => if lt x y then y :: insertD lt x ys else x :: y :: ys

/-- Stable descending sort by a strict-less comparator. -/
def isortD (lt : α → α → Bool) : List α → List α
  | [] => []
  | x :: xs => insertD lt x (isortD lt xs)

/-- Strict `<` on the sort keys of line 195
(`x.get('published_parsed', x.get('updated_parsed'))`); only defined,
and only used below, when both keys are present. -/
def entryLtB (e f : Entry) : Bool :=
  match publishDate e, publishDate f with
  | some x, some y => decide (x < y)
  | _, _ => false

/-- `sorted(feed.entries[:15], key=..., reverse=True)` (lines 193-197):
raises `TypeError` exactly when the list has at least two elements and
some entry's key is `None` (see the sorting-model note above); otherwise
the stable descending sort by timestamp. -/
def pySortEntries (l : List Entry) : Except Unit (List Entry) :=
  if l.length ≤ 1 then .ok l
  else if l.all (fun e => (publishDate e).isSome) then .ok (isortD entryLtB l)
  else .error ()

/-- Strict `<` on the sort-key triples of lines 217-221:
`(relevance_score, publish_date, is_primary_source)`.  Python tuple
comparison tests `==` componentwise and applies `<` to the first
differing component; `==` between `None` and a timestamp is `False`
without error, but `<` between them raises `TypeError` (`none` here).
No result dict ever carries `is_primary_source`, so
`x.get('is_primary_source', False)` is `False` on both sides and the
third component never decides. -/
def pyKeyLt (a b : Article) : Option Bool :=
  if a.relevance_score ≠ b.relevance_score then
    some (decide (a.relevance_score < b.relevance_score))
  else
    match a.publish_date, b.publish_date with
    | none, none => some false
    | some x, some y => if x = y then some false else some (decide (x < y))
    | _, _ => none

/-- Total extension of `pyKeyLt` used to state the sorted result; the
`Except` wrapper below reports the `TypeError` cases. -/
def pyKeyLtB (a b : Article) : Bool := (pyKeyLt a b).getD false

/-- Every pair of elements has comparable sort keys. -/
def allComparable (l : List Article) : Bool :=
  l.all fun a => l.all fun b => (pyKeyLt a b).isSome

/-- `matched_articles.sort(key=..., reverse=True)` (lines 217-221), a
stable descending sort.  An incomparable pair raises `TypeError`, which
propagates out of `fetch_and_filter_articles`; modelled as raising
whenever the list holds an incomparable pair.  This is exact for lists
of length at most 2 and for fully comparable lists (the regimes used by
the theorems below); for longer mixed lists Timsort raises whenever it
compares the incomparable pair, which the model over-approximates. -/
def pySortArticles (l : List Article) : Except Unit (List Article) :=
  if l.length ≤ 1 then .ok l
  else if allComparable l then .ok (isortD pyKeyLtB l)
  else .error ()

/-! ## Fetch orchestrator: `fetch_and_filter_articles` (lines 135-224) -/

/-- Outcome of `feedparser.parse` for one configured feed: `.error`
models an exception inside the per-feed `try` of lines 190-199. -/
abbrev FeedResult := Except Unit (List Entry)

/-- The entries one feed contributes to the scheduling loop: a parse
failure or a `TypeError` from the entry sort hits the same
`except`-`continue` (lines 198-199) and skips the whole feed; otherwise
the first 15 entries in feed-document order (`feed.entries[:15]`),
sorted by timestamp descending — the cap is applied before the sort. -/
def feedCandidates (fr : FeedResult) : List Entry :=
  match fr with
  | .error _ => []
  | .ok es =>
    match pySortEntries (es.take 15) with
    | .ok sorted => sorted
    | .error _ => []

/-- The dedup-and-submit loop of lines 201-206: one sequential pass in
submission order, keeping the first entry that claims each link.
Returns the submitted entries and the final `seen_links` set. -/
def scheduleEntries : List String → List Entry → List Entry × List String
  | seen, [] => ([], seen)
  | seen, e :: es =>
    match getLink e with
    | none => scheduleEntries seen es
    | some l =>
      if l ∈ seen then scheduleEntries seen es
      else
        (e :: (scheduleEntries (l :: seen) es).1, (scheduleEntries (l :: seen) es).2)

/-- The outer loop over `feed_urls` (lines 189-206), threading
`seen_links` across feeds. -/
def scheduleFeeds : List String → List FeedResult → List Entry × List String
  | seen, [] => ([], seen)
  | seen, fr :: frs =>
    ((scheduleEntries seen (feedCandidates fr)).1 ++
        (scheduleFeeds (scheduleEntries seen (feedCandidates fr)).2 frs).1,
      (scheduleFeeds (scheduleEntries seen (feedCandidates fr)).2 frs).2)

/-- All entries submitted to the worker pool during one run, in
submission order. -/
def submittedEntries (feeds : List FeedResult) : List Entry :=
  (scheduleFeeds [] feeds).1

/-- One record of the returned list: a scored article, or the
informational no-results dict of line 214. -/
inductive OutRecord
  | article (a : Article)
  | message (s : String)
  deriving DecidableEq

/-- The f-string of line 214. -/
def noResultsMessage (query : String) : String :=
  "No articles found containing the query '" ++ query ++ "'."

/-- The task results in submission order: one
`fetch_article_content(entry, keywords)` outcome per submitted entry,
with `keywords = query.lower().split()` (lines 182-185). -/
def taskResults (oracle : String → String) (now : Int)
    (feeds : List FeedResult) (query : String) : List (Option Article) :=
  (submittedEntries feeds).map fun e =>
    fetch_article_content oracle now e (pySplit (pyLower query))

/-- `matched_articles` after the `as_completed` collection loop (lines
208-211): the non-`None` results, observed in completion order.
`completionOrder` models the completion-order nondeterminism; theorems
assume it permutes its input. -/
def matchedOf (oracle : String → String) (now : Int)
    (completionOrder : List (Option Article) → List (Option Article))
    (feeds : List FeedResult) (query : String) : List Article :=
  (completionOrder (taskResults oracle now feeds query)).filterMap id

/-- `fetch_and_filter_articles(query)` (lines 135-224).  `.error` models
the uncaught `TypeError` escaping the final sort. -/
def fetch_and_filter_articles (oracle : String → String) (now : Int)
    (completionOrder : List (Option Article) → List (Option Article))
    (feeds : List FeedResult) (query : String) :
    Except Unit (List OutRecord) :=
  if matchedOf oracle now completionOrder feeds query = [] then
    .ok [.message (noResultsMessage query)]
  else
    match pySortArticles (matchedOf oracle now completionOrder feeds query) with
    | .ok sorted => .ok ((sorted.take 10).map .article)
    | .error e => .error e

instance {ε α : Type _} [DecidableEq ε] [DecidableEq α] :
    DecidableEq (Except ε α) := fun x y =>
  match x, y with
  | .error a, .error b =>
    if h : a = b then .isTrue (h ▸ rfl)
    else .isFalse (fun hh => h (Except.error.inj hh))
  | .ok a, .ok b =>
    if h : a = b then .isTrue (h ▸ rfl)
    else .isFalse (fun hh => h (Except.ok.inj hh))
  | .error _, .ok _ => .isFalse (fun hh => Except.noConfusion hh)
  | .ok _, .error _ => .isFalse (fun hh => Except.noConfusion hh)

/-- The links of the scored articles appearing in a returned list. -/
def outLinks (l : List OutRecord) : List String :=
  l.filterMap fun r =>
    match r with
    | .article a => some a.link
    | .message _ => none

/-- The links of a run's output, `[]` for an aborted run. -/
def outLinksOf : Except Unit (List OutRecord) → List String
  | .ok l => outLinks l
  | .error _ => []

/-- Modelled from the spec: "Sort each feed's entries by publish/update
time descending; cap to a bounded window per feed (≈15 most recent)" —
the sort over all entries first, then the cap.  Written only for
comparison with `feedCandidates`; entries without a timestamp sort
last. -/
def specLt (e f : Entry) : Bool :=
  match publishDate e, publishDate f with
  | some x, some y => decide (x < y)
  | none, some _ => true
  | _, none => false

/-- Modelled from the spec: the 15 most recent entries of a feed. -/
def specMostRecentWindow (entries : List Entry) : List Entry :=
  (isortD specLt entries).take 15

/-- The first-occurrence deduplication a sequential pass with a seen-set
performs on a list of links. -/
def keepFirst : List String → List String → List String
  | _, [] => []
  | seen, l :: ls => if l ∈ seen then keepFirst seen ls else l :: keepFirst (l :: seen) ls

/-- The seen-set after such a pass. -/
def kfSeen : List String → List String → List String
  | seen, [] => seen
  | seen, l :: ls => if l ∈ seen then kfSeen seen ls else kfSeen (l :: seen) ls

/-- The per-feed candidate links, in submission order, feed by feed. -/
def windowedLinks (feeds : List FeedResult) : List String :=
  ((feeds.map fun fr => (feedCandidates fr).filterMap getLink)).flatten

/-! ## Lemmas about the sorting model -/

theorem insertD_perm (lt : α → α → Bool) (x : α) (l : List α) :
    (insertD lt x l).Perm (x :: l) := by
  induction l with
  | nil => simp [insertD]
  | cons y ys ih =>
    unfold insertD
    by_cases h : lt x y = true
    · simp only [h, if_true]
      exact (ih.cons y).trans (List.Perm.swap x y ys)
    · simp only [Bool.not_eq_true] at h
      simp [h]

theorem isortD_perm (lt : α → α → Bool) (l : List α) :
    (isortD lt l).Perm l := by
  induction l with
  | nil => simp [isortD]
  | cons x xs ih => exact (insertD_perm lt x (isortD lt xs)).trans (ih.cons x)

theorem isortD_short (lt : α → α → Bool) (l : List α) (h : l.length ≤ 1) :
    isortD lt l = l := by
  match l with
  | [] => rfl
  | [x] => rfl
  | x :: y :: ys => simp at h

theorem insertD_pairwise (lt : α → α → Bool)
    (hasym : ∀ a b, lt a b = true → lt b a = false)
    (x : α) (l : List α)
    (hneg : ∀ a ∈ x :: l, ∀ b ∈ x :: l, ∀ c ∈ x :: l,
      lt a b = false → lt b c = false → lt a c = false)
    (hl : l.Pairwise fun a b => lt a b = false) :
    (insertD lt x l).Pairwise fun a b => lt a b = false := by
  induction l with
  | nil => simp [insertD]
  | cons y ys ih =>
    rcases List.pairwise_cons.mp hl with ⟨hy, hys⟩
    unfold insertD
    by_cases h : lt x y = true
    · simp only [h, if_true]
      refine List.pairwise_cons.mpr ⟨?_, ?_⟩
      · intro b hb
        rcases List.mem_cons.mp ((insertD_perm lt x ys).mem_iff.mp hb) with hbx | hbys
        · exact hbx ▸ hasym x y h
        · exact hy b hbys
      · refine ih ?_ hys
        intro a ha b hb c hc
        have w : ∀ z, z ∈ x :: ys → z ∈ x :: y :: ys := by
          intro z hz
          rcases List.mem_cons.mp hz with h1 | h1
          · exact h1 ▸ List.mem_cons_self x _
          · exact List.mem_cons_of_mem x (List.mem_cons_of_mem y h1)
        exact hneg a (w a ha) b (w b hb) c (w c hc)
    · simp only [Bool.not_eq_true] at h
      simp only [h, Bool.false_eq_true, if_false]
      refine List.pairwise_cons.mpr ⟨?_, hl⟩
      intro b hb
      rcases List.mem_cons.mp hb with h1 | h1
      · exact h1 ▸ h
      · exact hneg x (List.mem_cons_self x _) y
          (List.mem_cons_of_mem x (List.mem_cons_self y _)) b
          (List.mem_cons_of_mem x (List.mem_cons_of_mem y h1)) h (hy b h1)

theorem isortD_pairwise (lt : α → α → Bool)
    (hasym : ∀ a b, lt a b = true → lt b a = false)
    (l : List α)
    (hneg : ∀ a ∈ l, ∀ b ∈ l, ∀ c ∈ l,
      lt a b = false → lt b c = false → lt a c = false) :
    (isortD lt l).Pairwise fun a b => lt a b = false := by
  induction l with
  | nil => simp [isortD]
  | cons x xs ih =>
    unfold isortD
    have hmem : ∀ z, z ∈ x :: isortD lt xs → z ∈ x :: xs := by
      intro z hz
      rcases List.mem_cons.mp hz with h1 | h1
      · exact h1 ▸ List.mem_cons_self x _
      · exact List.mem_cons_of_mem x ((isortD_perm lt xs).mem_iff.mp h1)
    refine insertD_pairwise lt hasym x (isortD lt xs) ?_ ?_
    · intro a ha b hb c hc
      exact hneg a (hmem a ha) b (hmem b hb) c (hmem c hc)
    · refine ih ?_
      intro a ha b hb c hc
      exact hneg a (List.mem_cons_of_mem x ha) b (List.mem_cons_of_mem x hb)
        c (List.mem_cons_of_mem x hc)

/-! ## Lemmas about the article key comparison -/

theorem pyKeyLtB_asymm (a b : Article) (h : pyKeyLtB a b = true) :
    pyKeyLtB b a = false := by
  unfold pyKeyLtB pyKeyLt at h ⊢
  by_cases hs : a.relevance_score = b.relevance_score
  · rw [if_neg (not_not_intro hs)] at h
    rw [if_neg (not_not_intro hs.symm)]
    cases ha : a.publish_date with
    | none =>
      cases hb : b.publish_date <;> simp only [ha, hb] at h <;> simp at h
    | some x =>
      cases hb : b.publish_date with
      | none => simp only [ha, hb] at h; simp at h
      | some y =>
        simp only [ha, hb] at h ⊢
        by_cases hxy : x = y
        · rw [if_pos hxy] at h; simp at h
        · rw [if_neg hxy] at h
          rw [if_neg (fun hh => hxy hh.symm)]
          simp at h ⊢
          omega
  · rw [if_pos hs] at h
    rw [if_pos (fun hh => hs hh.symm : b.relevance_score ≠ a.relevance_score)]
    simp at h ⊢
    omega

theorem pyKeyLtB_negtrans (a b c : Article)
    (hab : (pyKeyLt a b).isSome) (hbc : (pyKeyLt b c).isSome)
    (h1 : pyKeyLtB a b = false) (h2 : pyKeyLtB b c = false) :
    pyKeyLtB a c = false := by
  unfold pyKeyLtB pyKeyLt at h1 h2 ⊢
  unfold pyKeyLt at hab hbc
  by_cases hsab : a.relevance_score = b.relevance_score
  · by_cases hsbc : b.relevance_score = c.relevance_score
    · -- all three scores tie: the dates decide
      have hsac : a.relevance_score = c.relevance_score := hsab.trans hsbc
      rw [if_neg (not_not_intro hsab)] at h1 hab
      rw [if_neg (not_not_intro hsbc)] at h2 hbc
      rw [if_neg (not_not_intro hsac)]
      cases ha : a.publish_date with
      | none =>
        cases hb : b.publish_date with
        | none =>
          cases hc : c.publish_date with
          | none => simp only [ha, hc]; simp
          | some z => rw [hb, hc] at hbc; simp at hbc
        | some y => rw [ha, hb] at hab; simp at hab
      | some x =>
        cases hb : b.publish_date with
        | none => rw [ha, hb] at hab; simp at hab
        | some y =>
          cases hc : c.publish_date with
          | none => rw [hb, hc] at hbc; simp at hbc
          | some z =>
            simp only [ha, hb] at h1
            simp only [hb, hc] at h2
            simp only [ha, hc]
            have hxy : y ≤ x := by
              by_cases hxy : x = y
              · omega
              · rw [if_neg hxy] at h1; simp at h1; omega
            have hyz : z ≤ y := by
              by_cases hyz : y = z
              · omega
              · rw [if_neg hyz] at h2; simp at h2; omega
            by_cases hxz : x = z
            · rw [if_pos hxz]; simp
            · rw [if_neg hxz]; simp; omega
    · -- a ties b, b strictly above c
      have h4 : c.relevance_score < b.relevance_score := by
        rw [if_pos hsbc] at h2; simp at h2; omega
      rw [if_pos (show a.relevance_score ≠ c.relevance_score by omega)]
      simp
      omega
  · by_cases hsbc : b.relevance_score = c.relevance_score
    · -- a strictly above b, b ties c
      have h3 : b.relevance_score < a.relevance_score := by
        rw [if_pos hsab] at h1; simp at h1; omega
      rw [if_pos (show a.relevance_score ≠ c.relevance_score by omega)]
      simp
      omega
    · -- two strict score drops
      have h3 : b.relevance_score < a.relevance_score := by
        rw [if_pos hsab] at h1; simp at h1; omega
      have h4 : c.relevance_score < b.relevance_score := by
        rw [if_pos hsbc] at h2; simp at h2; omega
      rw [if_pos (show a.relevance_score ≠ c.relevance_score by omega)]
      simp
      omega

theorem allComparable_iff (l : List Article) :
    allComparable l = true ↔ ∀ a ∈ l, ∀ b ∈ l, (pyKeyLt a b).isSome := by
  unfold allComparable
  simp [List.all_eq_true]

theorem allComparable_of_perm {l₁ l₂ : List Article} (h : l₁.Perm l₂)
    (h2 : allComparable l₂ = true) : allComparable l₁ = true := by
  rw [allComparable_iff] at h2 ⊢
  intro a ha b hb
  exact h2 a (h.mem_iff.mp ha) b (h.mem_iff.mp hb)

theorem allComparable_of_dates (l : List Article)
    (h : ∀ a ∈ l, a.publish_date.isSome = true) : allComparable l = true := by
  rw [allComparable_iff]
  intro a ha b hb
  rcases Option.isSome_iff_exists.mp (h a ha) with ⟨x, hx⟩
  rcases Option.isSome_iff_exists.mp (h b hb) with ⟨y, hy⟩
  unfold pyKeyLt
  by_cases hs : a.relevance_score = b.relevance_score
  · simp only [ne_eq, hs, not_true_eq_false, if_false, hx, hy]
    by_cases hxy : x = y <;> simp [hxy]
  · simp [hs]

theorem pySortArticles_ok_perm {l l2 : List Article}
    (h : pySortArticles l = .ok l2) : l2.Perm l := by
  unfold pySortArticles at h
  split_ifs at h
  · exact (Except.ok.inj h) ▸ List.Perm.refl l
  · exact (Except.ok.inj h) ▸ isortD_perm pyKeyLtB l

theorem pySortArticles_ok_of_comparable {l : List Article}
    (h : allComparable l = true) :
    pySortArticles l = .ok (isortD pyKeyLtB l) := by
  unfold pySortArticles
  split_ifs with h1
  · rw [isortD_short pyKeyLtB l h1]
  · rfl

/-! ## Lemmas about the scorer -/

theorem titleScoreOf_eq (e : Entry) (kws : List String) :
    titleScoreOf e kws = 10 * keywordHits (titleOf e) kws := by
  unfold titleScoreOf keywordHits
  induction kws with
  | nil => simp
  | cons k ks ih =>
    simp only [List.map_cons, List.sum_cons, ih]
    ring

/-- Everything the scorer guarantees about a returned article. -/
theorem fetch_article_content_some (oracle : String → String) (now : Int)
    (e : Entry) (kws : List String) (a : Article)
    (h : fetch_article_content oracle now e kws = some a) :
    getLink e = some a.link ∧
    a.title = titleOf e ∧
    a.content = finalContentOf oracle a.link e ∧
    a.publish_date = publishDate e ∧
    a.title_matches = keywordHits (titleOf e) kws ∧
    a.content_matches = keywordHits a.content kws ∧
    a.recency_bonus = recencyScoreOf now e ∧
    a.relevance_score = 10 * a.title_matches + a.content_matches + a.recency_bonus ∧
    0 < a.relevance_score := by
  unfold fetch_article_content at h
  cases hl : getLink e with
  | none => rw [hl] at h; exact absurd h (by simp)
  | some link =>
    rw [hl] at h
    dsimp only at h
    split_ifs at h with hpos
    · have := Option.some.inj h
      subst this
      refine ⟨rfl, rfl, rfl, rfl, ?_, rfl, rfl, ?_, hpos⟩
      · dsimp only
        have h10 := titleScoreOf_eq e kws
        omega
      · dsimp only
        have h10 := titleScoreOf_eq e kws
        simp only [totalScoreOf]
        omega

theorem fetch_pos {oracle : String → String} {now : Int}
    {e : Entry} {kws : List String} {a : Article}
    (h : fetch_article_content oracle now e kws = some a) :
    0 < a.relevance_score :=
  (fetch_article_content_some oracle now e kws a h).2.2.2.2.2.2.2.2

theorem fetch_link {oracle : String → String} {now : Int}
    {e : Entry} {kws : List String} {a : Article}
    (h : fetch_article_content oracle now e kws = some a) :
    getLink e = some a.link :=
  (fetch_article_content_some oracle now e kws a h).1

theorem fetch_date {oracle : String → String} {now : Int}
    {e : Entry} {kws : List String} {a : Article}
    (h : fetch_article_content oracle now e kws = some a) :
    a.publish_date = publishDate e :=
  (fetch_article_content_some oracle now e kws a h).2.2.2.1

/-! ## Lemmas about the scheduling and deduplication pass -/

theorem keepFirst_spec (ls : List String) : ∀ seen,
    (keepFirst seen ls).Nodup ∧ ∀ x ∈ keepFirst seen ls, x ∉ seen := by
  induction ls with
  | nil => intro seen; simp [keepFirst]
  | cons l ls ih =>
    intro seen
    unfold keepFirst
    by_cases h : l ∈ seen
    · simp only [if_pos h]
      exact ih seen
    · simp only [if_neg h]
      rcases ih (l :: seen) with ⟨hnd, hmem⟩
      refine ⟨List.nodup_cons.mpr ⟨?_, hnd⟩, ?_⟩
      · intro hl
        exact hmem l hl (List.mem_cons_self l seen)
      · intro x hx hxs
        rcases List.mem_cons.mp hx with rfl | hx2
        · exact h hxs
        · exact hmem x hx2 (List.mem_cons_of_mem l hxs)

theorem scheduleEntries_fst_links (es : List Entry) : ∀ seen,
    ((scheduleEntries seen es).1).filterMap getLink =
      keepFirst seen (es.filterMap getLink) := by
  induction es with
  | nil => intro seen; simp [scheduleEntries, keepFirst]
  | cons e es ih =>
    intro seen
    unfold scheduleEntries
    cases hl : getLink e with
    | none =>
      simp only [List.filterMap_cons, hl]
      exact ih seen
    | some l =>
      simp only [List.filterMap_cons, hl]
      unfold keepFirst
      by_cases h : l ∈ seen
      · simp only [if_pos h]
        exact ih seen
      · simp only [if_neg h, List.filterMap_cons, hl]
        rw [ih (l :: seen)]

theorem scheduleEntries_snd (es : List Entry) : ∀ seen,
    (scheduleEntries seen es).2 = kfSeen seen (es.filterMap getLink) := by
  induction es with
  | nil => intro seen; simp [scheduleEntries, kfSeen]
  | cons e es ih =>
    intro seen
    unfold scheduleEntries
    cases hl : getLink e with
    | none =>
      simp only [List.filterMap_cons, hl]
      exact ih seen
    | some l =>
      simp only [List.filterMap_cons, hl]
      unfold kfSeen
      by_cases h : l ∈ seen
      · simp only [if_pos h]
        exact ih seen
      · simp only [if_neg h]
        exact ih (l :: seen)

theorem keepFirst_cons (seen : List String) (l : String) (ls : List String) :
    keepFirst seen (l :: ls) =
      if l ∈ seen then keepFirst seen ls else l :: keepFirst (l :: seen) ls := rfl

theorem kfSeen_cons (seen : List String) (l : String) (ls : List String) :
    kfSeen seen (l :: ls) =
      if l ∈ seen then kfSeen seen ls else kfSeen (l :: seen) ls := rfl

theorem keepFirst_append (xs ys : List String) : ∀ seen,
    keepFirst seen (xs ++ ys) =
      keepFirst seen xs ++ keepFirst (kfSeen seen xs) ys := by
  induction xs with
  | nil => intro seen; simp [keepFirst, kfSeen]
  | cons x xs ih =>
    intro seen
    rw [List.cons_append, keepFirst_cons, keepFirst_cons, kfSeen_cons]
    by_cases h : x ∈ seen
    · rw [if_pos h, if_pos h, if_pos h]
      exact ih seen
    · rw [if_neg h, if_neg h, if_neg h, List.cons_append, ih (x :: seen)]

theorem scheduleFeeds_fst_links (frs : List FeedResult) : ∀ seen,
    ((scheduleFeeds seen frs).1).filterMap getLink =
      keepFirst seen (windowedLinks frs) := by
  induction frs with
  | nil => intro seen; simp [scheduleFeeds, windowedLinks, keepFirst]
  | cons fr frs ih =>
    intro seen
    unfold scheduleFeeds
    simp only [List.filterMap_append]
    rw [scheduleEntries_fst_links, scheduleEntries_snd, ih]
    unfold windowedLinks
    simp only [List.map_cons, List.flatten_cons]
    rw [keepFirst_append]

/-- The dedup invariant at the link level: the links submitted for
processing are the first-occurrence deduplication of the candidate
links, in order. -/
theorem submitted_links_eq (feeds : List FeedResult) :
    (submittedEntries feeds).filterMap getLink =
      keepFirst [] (windowedLinks feeds) :=
  scheduleFeeds_fst_links feeds []

theorem submitted_links_nodup (feeds : List FeedResult) :
    ((submittedEntries feeds).filterMap getLink).Nodup := by
  rw [submitted_links_eq]
  exact (keepFirst_spec (windowedLinks feeds) []).1

/-- Each submitted entry contributes at most one article, carrying that
entry's link, so the matched links (in submission order) form a sublist
of the submitted links. -/
theorem matched_links_sublist (oracle : String → String) (now : Int)
    (kws : List String) (es : List Entry) :
    (((es.map fun e => fetch_article_content oracle now e kws).filterMap id).map
        Article.link).Sublist (es.filterMap getLink) := by
  induction es with
  | nil => simp
  | cons e es ih =>
    simp only [List.map_cons, List.filterMap_cons]
    cases hf : fetch_article_content oracle now e kws with
    | none =>
      cases hl : getLink e with
      | none => exact ih
      | some l => exact List.Sublist.cons l ih
    | some a =>
      rw [fetch_link hf]
      simp only [List.map_cons]
      exact List.Sublist.cons₂ a.link ih

/-! ## Further lemmas used by the claim theorems -/

theorem firstGoodSelector_long {l : List (Option String)} {t : String}
    (h : firstGoodSelector l = some t) : 100 < t.length := by
  induction l with
  | nil => exact absurd h (by simp [firstGoodSelector])
  | cons o rest ih =>
    cases o with
    | none => exact ih h
    | some u =>
      unfold firstGoodSelector at h
      split_ifs at h with hlen
      · exact (Option.some.inj h) ▸ hlen
      · exact ih h

theorem pySortEntries_ok_perm {l l2 : List Entry}
    (h : pySortEntries l = .ok l2) : l2.Perm l := by
  unfold pySortEntries at h
  split_ifs at h
  · exact (Except.ok.inj h) ▸ List.Perm.refl l
  · exact (Except.ok.inj h) ▸ isortD_perm entryLtB l

theorem scheduleEntries_subset (es : List Entry) : ∀ seen,
    ∀ e ∈ (scheduleEntries seen es).1, e ∈ es := by
  induction es with
  | nil => intro seen e he; exact absurd he (by simp [scheduleEntries])
  | cons e0 es ih =>
    intro seen e he
    unfold scheduleEntries at he
    cases hl : getLink e0 with
    | none =>
      rw [hl] at he
      exact List.mem_cons_of_mem e0 (ih seen e he)
    | some l =>
      rw [hl] at he
      dsimp only at he
      split_ifs at he
      · exact List.mem_cons_of_mem e0 (ih seen e he)
      · rcases List.mem_cons.mp he with rfl | he2
        · exact List.mem_cons_self e es
        · exact List.mem_cons_of_mem e0 (ih (l :: seen) e he2)

theorem scheduleFeeds_mem (frs : List FeedResult) : ∀ seen,
    ∀ e ∈ (scheduleFeeds seen frs).1, ∃ fr ∈ frs, e ∈ feedCandidates fr := by
  induction frs with
  | nil => intro seen e he; exact absurd he (by simp [scheduleFeeds])
  | cons fr frs ih =>
    intro seen e he
    unfold scheduleFeeds at he
    rcases List.mem_append.mp he with h1 | h2
    · exact ⟨fr, List.mem_cons_self fr frs,
        scheduleEntries_subset (feedCandidates fr) seen e h1⟩
    · rcases ih _ e h2 with ⟨fr2, hfr2, he2⟩
      exact ⟨fr2, List.mem_cons_of_mem fr hfr2, he2⟩

/-- A feed whose candidate list is empty contributes nothing and changes
no state, so it can be dropped from the run. -/
theorem scheduleFeeds_skip {fr : FeedResult} (hc : feedCandidates fr = [])
    (frs : List FeedResult) : ∀ seen,
    scheduleFeeds seen (fr :: frs) = scheduleFeeds seen frs := by
  intro seen
  conv_lhs => rw [scheduleFeeds]
  rw [hc]
  simp [scheduleEntries]

theorem recencyScoreOf_cases (now : Int) (e : Entry) :
    recencyScoreOf now e = 0 ∨ recencyScoreOf now e = 3 ∨
      recencyScoreOf now e = 5 := by
  unfold recencyScoreOf
  cases publishDate e with
  | none => left; rfl
  | some t =>
    dsimp only
    split_ifs <;> simp

theorem recencyScoreOf_pos_date {now : Int} {e : Entry}
    (h : 0 < recencyScoreOf now e) : (publishDate e).isSome = true := by
  unfold recencyScoreOf at h
  cases hd : publishDate e
  · rw [hd] at h; exact absurd h (by simp)
  · rfl

theorem outLinks_map_article (l : List Article) :
    outLinks (l.map .article) = l.map Article.link := by
  induction l with
  | nil => rfl
  | cons a l ih => simpa [outLinks, List.filterMap_cons] using ih

theorem matchedOf_perm (oracle : String → String) (now : Int)
    (completionOrder : List (Option Article) → List (Option Article))
    (feeds : List FeedResult) (query : String)
    (hperm : (completionOrder (taskResults oracle now feeds query)).Perm
      (taskResults oracle now feeds query)) :
    (matchedOf oracle now completionOrder feeds query).Perm
      ((taskResults oracle now feeds query).filterMap id) :=
  List.Perm.filterMap id hperm

theorem taskResults_links_nodup (oracle : String → String) (now : Int)
    (feeds : List FeedResult) (query : String) :
    (((taskResults oracle now feeds query).filterMap id).map Article.link).Nodup :=
  List.Nodup.sublist
    (matched_links_sublist oracle now (pySplit (pyLower query)) (submittedEntries feeds))
    (submitted_links_nodup feeds)

/-! ## Concrete data used by witnesses and counterexamples -/

def wOracle : String → String := fun _ => ""

def wNow : Int := 1000000

def wEntry : Entry := ⟨some "alpha", none, some "a", some 999000, none⟩

def wArticle : Article := ⟨"alpha", "", "a", some 999000, 15, 1, 0, 5⟩

/-- A 101-character text, above the substance threshold. -/
def wLong : String := String.mk (List.replicate 101 'a')

/-! ## Claim theorems -/

/-- C9: for every URL (i.e. for all extraction outcomes), the content
extractor returns either the empty string or a string of more than 100
characters: each of the three strategies only returns text above the
100-character substance threshold. -/
theorem C9_substance_threshold (primary : Except Unit String)
    (scrape : Except Unit ScrapeResult) :
    get_article_content primary scrape = "" ∨
      100 < (get_article_content primary scrape).length := by
  unfold get_article_content
  cases primary with
  | error e => exact Or.inl rfl
  | ok content =>
    dsimp only
    by_cases h1 : content ≠ "" ∧ 100 < content.length
    · rw [if_pos h1]
      exact Or.inr h1.2
    · rw [if_neg h1]
      cases scrape with
      | error e => exact Or.inl rfl
      | ok r =>
        dsimp only
        cases hfg : firstGoodSelector r.selectorTexts with
        | some t => exact Or.inr (firstGoodSelector_long hfg)
        | none =>
          by_cases h2 : r.paragraphText ≠ "" ∧ 100 < r.paragraphText.length
          · rw [if_pos h2]
            exact Or.inr h2.2
          · rw [if_neg h2]
            exact Or.inl rfl

/-- C5: the content extractor always returns a string — a raised
retrieval error in either fetch is caught and becomes the empty string —
and whenever the primary strategy yields text of at most 100 characters,
the raw-scrape selector strategies and the paragraph-concatenation
strategy are consulted, and the empty string is returned only after they
too have failed. -/
theorem C5_extractor_contract (primary : Except Unit String)
    (scrape : Except Unit ScrapeResult) :
    (primary = .error () → get_article_content primary scrape = "") ∧
    (∀ t, primary = .ok t → t.length ≤ 100 → scrape = .error () →
      get_article_content primary scrape = "") ∧
    (∀ t r, primary = .ok t → t.length ≤ 100 → scrape = .ok r →
      (∀ u, firstGoodSelector r.selectorTexts = some u →
        get_article_content primary scrape = u) ∧
      (firstGoodSelector r.selectorTexts = none →
        100 < r.paragraphText.length → r.paragraphText ≠ "" →
        get_article_content primary scrape = r.paragraphText) ∧
      (get_article_content primary scrape = "" →
        firstGoodSelector r.selectorTexts = none ∧
          r.paragraphText.length ≤ 100)) := by
  refine ⟨?_, ?_, ?_⟩
  · rintro rfl
    rfl
  · rintro t rfl hlen rfl
    unfold get_article_content
    dsimp only
    rw [if_neg (fun hc => absurd hc.2 (not_lt.mpr hlen))]
  · rintro t r rfl hlen rfl
    have hshort : ¬(t ≠ "" ∧ 100 < t.length) :=
      fun hc => absurd hc.2 (not_lt.mpr hlen)
    refine ⟨?_, ?_, ?_⟩
    · intro u hu
      unfold get_article_content
      dsimp only
      rw [if_neg hshort, hu]
    · intro hnone hplen hpne
      unfold get_article_content
      dsimp only
      rw [if_neg hshort, hnone]
      dsimp only
      rw [if_pos ⟨hpne, hplen⟩]
    · intro hempty
      unfold get_article_content at hempty
      dsimp only at hempty
      rw [if_neg hshort] at hempty
      cases hfg : firstGoodSelector r.selectorTexts with
      | some u =>
        rw [hfg] at hempty
        dsimp only at hempty
        have := firstGoodSelector_long hfg
        rw [hempty] at this
        exact absurd this (by simp)
      | none =>
        refine ⟨rfl, ?_⟩
        rw [hfg] at hempty
        dsimp only at hempty
        by_cases h2 : r.paragraphText ≠ "" ∧ 100 < r.paragraphText.length
        · rw [if_pos h2] at hempty
          exact absurd (hempty ▸ h2.2) (by simp)
        · rcases not_and_or.mp h2 with h3 | h3
          · simp only [ne_eq, not_not] at h3
            rw [h3]
            simp
          · exact not_lt.mp h3

theorem C5_extractor_contract_witness :
    get_article_content (.ok "short") (.ok ⟨[none, some wLong], "p"⟩) = wLong ∧
    get_article_content (.ok "short") (.error ()) = "" :=
  ⟨((C5_extractor_contract (.ok "short") (.ok ⟨[none, some wLong], "p"⟩)).2.2
      "short" ⟨[none, some wLong], "p"⟩ rfl (by decide) rfl).1 wLong (by decide),
    (C5_extractor_contract (.ok "short") (.error ())).2.1 "short" rfl
      (by decide) rfl⟩

/-- C1: the scorer returns `none` or an article whose relevance score is
`10*titleMatches + contentMatches + recencyBonus`, where `titleMatches`
is the summed case-insensitive keyword occurrence count over the title
and `contentMatches` the same sum over the article's content; an entry
whose total score is ≤ 0 is excluded — the scorer returns `none`, and
every article in the orchestrator's output has positive score. -/
theorem C1_score_formula (oracle : String → String) (now : Int) :
    (∀ (entry : Entry) (keywords : List String) (a : Article),
      fetch_article_content oracle now entry keywords = some a →
        a.relevance_score =
          10 * a.title_matches + a.content_matches + a.recency_bonus ∧
        a.title_matches = keywordHits (titleOf entry) keywords ∧
        a.content_matches = keywordHits a.content keywords ∧
        0 < a.relevance_score) ∧
    (∀ (entry : Entry) (keywords : List String) (link : String),
      getLink entry = some link →
      totalScoreOf oracle now entry keywords link ≤ 0 →
      fetch_article_content oracle now entry keywords = none) ∧
    (∀ (completionOrder : List (Option Article) → List (Option Article))
      (feeds : List FeedResult) (query : String) (out : List OutRecord)
      (a : Article),
      (completionOrder (taskResults oracle now feeds query)).Perm
        (taskResults oracle now feeds query) →
      fetch_and_filter_articles oracle now completionOrder feeds query = .ok out →
      OutRecord.article a ∈ out → 0 < a.relevance_score) := by
  refine ⟨?_, ?_, ?_⟩
  · intro entry keywords a h
    rcases fetch_article_content_some oracle now entry keywords a h with
      ⟨-, -, -, -, h5, h6, -, h8, h9⟩
    exact ⟨h8, h5, h6, h9⟩
  · intro entry keywords link hlink hscore
    unfold fetch_article_content
    rw [hlink]
    dsimp only
    rw [if_neg (by omega)]
  · intro completionOrder feeds query out a hperm hout hmem
    unfold fetch_and_filter_articles at hout
    by_cases hm : matchedOf oracle now completionOrder feeds query = []
    · rw [if_pos hm] at hout
      have : out = [.message (noResultsMessage query)] := (Except.ok.inj hout).symm
      subst this
      rcases List.mem_singleton.mp hmem with h
      exact absurd h (by simp)
    · rw [if_neg hm] at hout
      cases hsort : pySortArticles (matchedOf oracle now completionOrder feeds query) with
      | error err => rw [hsort] at hout; exact absurd hout (by simp)
      | ok sorted =>
        rw [hsort] at hout
        have hos : out = (sorted.take 10).map .article := (Except.ok.inj hout).symm
        subst hos
        rcases List.mem_map.mp hmem with ⟨b, hb, hba⟩
        have hba2 : b = a := by injection hba
        subst hba2
        have h1 : b ∈ sorted := (List.take_sublist 10 sorted).subset hb
        have h2 : b ∈ matchedOf oracle now completionOrder feeds query :=
          (pySortArticles_ok_perm hsort).mem_iff.mp h1
        have h3 : b ∈ (taskResults oracle now feeds query).filterMap id :=
          (matchedOf_perm oracle now completionOrder feeds query hperm).mem_iff.mp h2
        rcases List.mem_filterMap.mp h3 with ⟨o, ho, hob⟩
        have ho2 : o = some b := hob
        subst ho2
        rcases List.mem_map.mp ho with ⟨e, -, hfe⟩
        exact fetch_pos hfe

theorem C1_score_formula_witness :
    fetch_article_content wOracle wNow wEntry ["alpha"] = some wArticle ∧
    wArticle.relevance_score =
      10 * wArticle.title_matches + wArticle.content_matches +
        wArticle.recency_bonus ∧
    wArticle.title_matches = keywordHits (titleOf wEntry) ["alpha"] ∧
    wArticle.content_matches = keywordHits wArticle.content ["alpha"] ∧
    0 < wArticle.relevance_score :=
  ⟨by decide, (C1_score_formula wOracle wNow).1 wEntry ["alpha"] wArticle (by decide)⟩

/-- C6: when no article scores above 0 — in particular when every feed
fails to parse — the orchestrator does not raise and returns exactly the
one-element informational list with the original query interpolated. -/
theorem C6_no_matches_message (oracle : String → String) (now : Int)
    (completionOrder : List (Option Article) → List (Option Article))
    (feeds : List FeedResult) (query : String)
    (hperm : (completionOrder (taskResults oracle now feeds query)).Perm
      (taskResults oracle now feeds query))
    (hall : ∀ e ∈ submittedEntries feeds,
      fetch_article_content oracle now e (pySplit (pyLower query)) = none) :
    fetch_and_filter_articles oracle now completionOrder feeds query =
      .ok [.message ("No articles found containing the query '" ++ query ++ "'.")] := by
  have hbase : (taskResults oracle now feeds query).filterMap id = [] := by
    rw [List.filterMap_eq_nil_iff]
    intro o ho
    rcases List.mem_map.mp ho with ⟨e, he, hfe⟩
    rw [← hfe]
    exact hall e he
  have hm : matchedOf oracle now completionOrder feeds query = [] := by
    have hp := matchedOf_perm oracle now completionOrder feeds query hperm
    rw [hbase] at hp
    exact hp.eq_nil
  unfold fetch_and_filter_articles
  rw [if_pos hm]
  rfl

theorem C6_no_matches_message_witness :
    fetch_and_filter_articles wOracle wNow id [.error ()] "cats" =
      .ok [.message ("No articles found containing the query '" ++ "cats" ++ "'.")] :=
  C6_no_matches_message wOracle wNow id [.error ()] "cats"
    (List.Perm.refl _) (by decide)

/-- C2: no two scored articles in a returned list share a link: the
sequential pre-pass keeps only the first entry claiming each link
(`keepFirst` of the candidate links), and each task carries its entry's
link into its article. -/
theorem C2_dedup_links (oracle : String → String) (now : Int)
    (completionOrder : List (Option Article) → List (Option Article))
    (feeds : List FeedResult) (query : String) (out : List OutRecord)
    (hperm : (completionOrder (taskResults oracle now feeds query)).Perm
      (taskResults oracle now feeds query))
    (hout : fetch_and_filter_articles oracle now completionOrder feeds query =
      .ok out) :
    (outLinks out).Nodup ∧
    (submittedEntries feeds).filterMap getLink =
      keepFirst [] (windowedLinks feeds) := by
  refine ⟨?_, submitted_links_eq feeds⟩
  unfold fetch_and_filter_articles at hout
  by_cases hm : matchedOf oracle now completionOrder feeds query = []
  · rw [if_pos hm] at hout
    have : out = [.message (noResultsMessage query)] := (Except.ok.inj hout).symm
    subst this
    simp [outLinks]
  · rw [if_neg hm] at hout
    cases hsort : pySortArticles (matchedOf oracle now completionOrder feeds query) with
    | error err => rw [hsort] at hout; exact absurd hout (by simp)
    | ok sorted =>
      rw [hsort] at hout
      have hos : out = (sorted.take 10).map .article := (Except.ok.inj hout).symm
      subst hos
      rw [outLinks_map_article]
      have hbase := taskResults_links_nodup oracle now feeds query
      have hp1 := (matchedOf_perm oracle now completionOrder feeds query hperm).map
        Article.link
      have hnd1 : ((matchedOf oracle now completionOrder feeds query).map
          Article.link).Nodup := hp1.symm.nodup hbase
      have hp2 := (pySortArticles_ok_perm hsort).map Article.link
      have hnd2 : (sorted.map Article.link).Nodup := hp2.symm.nodup hnd1
      exact List.Nodup.sublist (List.Sublist.map Article.link
        (List.take_sublist 10 sorted)) hnd2

theorem C2_dedup_links_witness :
    (outLinks [.article wArticle]).Nodup ∧
    (submittedEntries [Except.ok [wEntry]]).filterMap getLink =
      keepFirst [] (windowedLinks [Except.ok [wEntry]]) :=
  C2_dedup_links wOracle wNow id [Except.ok [wEntry]] "alpha" [.article wArticle]
    (List.Perm.refl _) (by decide)

/-- C10: a `TypeError` raised while sorting a feed's entries (e.g. a
missing timestamp in the window) hits the same `except` handler as a
parse failure: the whole feed, well-formed entries included, is skipped
and the remaining feeds are processed as if the feed were absent. -/
theorem C10_sort_failure_skips_whole_feed (f1 f2 : List FeedResult)
    (es : List Entry) (hfail : pySortEntries (es.take 15) = .error ()) :
    submittedEntries (f1 ++ .ok es :: f2) = submittedEntries (f1 ++ f2) := by
  have hc : feedCandidates (.ok es) = [] := by
    unfold feedCandidates
    dsimp only
    rw [hfail]
  unfold submittedEntries
  suffices h : ∀ seen, scheduleFeeds seen (f1 ++ .ok es :: f2) =
      scheduleFeeds seen (f1 ++ f2) by
    rw [h []]
  induction f1 with
  | nil =>
    intro seen
    exact scheduleFeeds_skip hc f2 seen
  | cons fr frs ih =>
    intro seen
    simp only [List.cons_append]
    conv_lhs => rw [scheduleFeeds]
    conv_rhs => rw [scheduleFeeds]
    rw [ih ((scheduleEntries seen (feedCandidates fr)).2)]

/-- The dateless entries making the witness feed's sort raise. -/
def wBadA : Entry := ⟨some "b1", none, some "ba", none, none⟩

def wBadB : Entry := ⟨some "b2", none, some "bb", none, none⟩

theorem C10_sort_failure_skips_whole_feed_witness :
    pySortEntries ([wBadA, wBadB].take 15) = .error () ∧
    submittedEntries [Except.ok [wEntry], .ok [wBadA, wBadB]] =
      submittedEntries [Except.ok [wEntry]] :=
  ⟨by decide,
    C10_sort_failure_skips_whole_feed [Except.ok [wEntry]] [] [wBadA, wBadB]
      (by decide)⟩

/-- One of 30 feed entries: entry `i` has a distinct link and timestamp
`i`, so later entries are more recent. -/
def c4entry (i : Nat) : Entry :=
  ⟨some "t", none, some (String.mk (List.replicate i 'x')), some (Int.ofNat i), none⟩

/-- A feed listing its 30 entries oldest first. -/
def c4feed : List Entry := (List.range 30).map fun i => c4entry (i + 1)

/-- C4 counterexample: the code caps to the FIRST 15 entries in
feed-document order before sorting, so for a feed listed oldest-first
the oldest entry is submitted although it is far outside the 15 most
recent, and the most recent entry of all is never processed. -/
theorem C4_window_counterexample :
    c4entry 1 ∈ submittedEntries [Except.ok c4feed] ∧
    c4entry 1 ∉ specMostRecentWindow c4feed ∧
    c4entry 30 ∈ specMostRecentWindow c4feed ∧
    c4entry 30 ∉ submittedEntries [Except.ok c4feed] := by decide

/-- C4 amended: the per-feed window is the feed's first 15 entries in
document order — the `[:15]` cap is applied before the time sort — and
every submitted entry comes from some feed's window; the window
coincides with the 15 most recent entries only when the feed is already
listed newest-first. -/
theorem C4_first15_window :
    (∀ es : List Entry, ∀ e ∈ feedCandidates (.ok es), e ∈ es.take 15) ∧
    (∀ feeds : List FeedResult, ∀ e ∈ submittedEntries feeds,
      ∃ fr ∈ feeds, e ∈ feedCandidates fr) := by
  constructor
  · intro es e he
    unfold feedCandidates at he
    dsimp only at he
    cases hs : pySortEntries (es.take 15) with
    | error err => rw [hs] at he; exact absurd he (by simp)
    | ok l =>
      rw [hs] at he
      exact (pySortEntries_ok_perm hs).mem_iff.mp he
  · intro feeds e he
    exact scheduleFeeds_mem feeds [] e he

theorem C4_first15_window_witness :
    c4entry 1 ∈ c4feed.take 15 ∧
    (∃ fr ∈ [Except.ok c4feed], c4entry 1 ∈ feedCandidates fr) :=
  ⟨C4_first15_window.1 c4feed (c4entry 1) (by decide),
    C4_first15_window.2 [Except.ok c4feed] (c4entry 1) (by decide)⟩

/-- The article the witness entry yields under an empty query: only the
recency bonus scores. -/
def wArticle5 : Article := ⟨"alpha", "", "a", some 999000, 5, 0, 0, 5⟩

/-- C8 counterexample: an empty query surfaces no error — the run
returns `.ok` — and a recent entry is returned as a match although the
keyword set is empty (it scores on the recency bonus alone). -/
theorem C8_empty_query_counterexample :
    fetch_and_filter_articles wOracle wNow id [Except.ok [wEntry]] "" =
      .ok [.article wArticle5] := by decide

/-- C8 amended: an empty query does not surface an error: the keyword
list is empty, so title and content scores are zero and an entry is
returned as a match exactly on a positive recency bonus (its score is
then 3 or 5); the run always returns `.ok` for an empty query, since
every matched article then carries a timestamp and the final sort is
total on such lists. -/
theorem C8_empty_query_no_error (oracle : String → String) (now : Int) :
    (∀ (entry : Entry) (a : Article),
      fetch_article_content oracle now entry [] = some a →
        a.title_matches = 0 ∧ a.content_matches = 0 ∧
        a.relevance_score = a.recency_bonus ∧
        (a.recency_bonus = 3 ∨ a.recency_bonus = 5)) ∧
    pySplit (pyLower "") = [] ∧
    (∀ (completionOrder : List (Option Article) → List (Option Article))
      (feeds : List FeedResult),
      (completionOrder (taskResults oracle now feeds "")).Perm
        (taskResults oracle now feeds "") →
      ∃ l, fetch_and_filter_articles oracle now completionOrder feeds "" =
        .ok l) := by
  refine ⟨?_, rfl, ?_⟩
  · intro entry a h
    rcases fetch_article_content_some oracle now entry [] a h with
      ⟨-, -, -, -, h5, h6, h7, h8, h9⟩
    have hz1 : keywordHits (titleOf entry) [] = 0 := rfl
    have hz2 : keywordHits a.content [] = 0 := rfl
    have hrb := recencyScoreOf_cases now entry
    refine ⟨by omega, by omega, by omega, ?_⟩
    rcases hrb with h0 | h3 | h5c
    · exfalso; omega
    · exact Or.inl (by omega)
    · exact Or.inr (by omega)
  · intro completionOrder feeds hperm
    by_cases hm : matchedOf oracle now completionOrder feeds "" = []
    · exact ⟨_, by unfold fetch_and_filter_articles; rw [if_pos hm]⟩
    · have hdates : ∀ a ∈ matchedOf oracle now completionOrder feeds "",
          a.publish_date.isSome = true := by
        intro a ha
        have h3 : a ∈ (taskResults oracle now feeds "").filterMap id :=
          (matchedOf_perm oracle now completionOrder feeds "" hperm).mem_iff.mp ha
        rcases List.mem_filterMap.mp h3 with ⟨o, ho, hob⟩
        have ho2 : o = some a := hob
        subst ho2
        rcases List.mem_map.mp ho with ⟨e, -, hfe⟩
        rcases fetch_article_content_some oracle now e (pySplit (pyLower "")) a hfe
          with ⟨-, -, -, h4, h5, h6, h7, h8, h9⟩
        have hz1 : keywordHits (titleOf e) (pySplit (pyLower "")) = 0 := rfl
        have hz2 : keywordHits a.content (pySplit (pyLower "")) = 0 := rfl
        have hrbpos : 0 < a.recency_bonus := by omega
        rw [h4]
        exact recencyScoreOf_pos_date (h7 ▸ hrbpos)
      have hcomp := allComparable_of_dates _ hdates
      exact ⟨_, by
        unfold fetch_and_filter_articles
        rw [if_neg hm, pySortArticles_ok_of_comparable hcomp]⟩

theorem C8_empty_query_no_error_witness :
    (wArticle5.title_matches = 0 ∧ wArticle5.content_matches = 0 ∧
      wArticle5.relevance_score = wArticle5.recency_bonus ∧
      (wArticle5.recency_bonus = 3 ∨ wArticle5.recency_bonus = 5)) ∧
    ∃ l, fetch_and_filter_articles wOracle wNow id [Except.ok [wEntry]] "" =
      .ok l :=
  ⟨(C8_empty_query_no_error wOracle wNow).1 wEntry wArticle5 (by decide),
    (C8_empty_query_no_error wOracle wNow).2.2 id [Except.ok [wEntry]]
      (List.Perm.refl _)⟩

/-- A matching entry without any timestamp (a one-entry feed, so the
per-feed entry sort does not raise): score 10 + 5 content hits = 15. -/
def c3entryA : Entry :=
  ⟨some "alpha", some (.str "alpha alpha alpha alpha alpha"), some "a", none, none⟩

/-- A matching entry with a recent timestamp: score 10 + recency 5 = 15. -/
def c3entryB : Entry := ⟨some "alpha", some (.str ""), some "b", some 996400, none⟩

/-- C3 counterexample: two matched articles tie at score 15, one with a
publish date and one without; the final sort compares `None` against a
timestamp and raises `TypeError`, so no list is returned at all — the
sort is not a total order on all result collections. -/
theorem C3_mixed_dates_counterexample :
    fetch_and_filter_articles wOracle wNow id
      [Except.ok [c3entryA], Except.ok [c3entryB]] "alpha" = .error () := by decide

/-- C3 amended: when at least one article matched and every matched
article carries a publish timestamp, the returned list is the full
candidate list stably sorted descending by
(relevance_score, publish_date, source flag) and truncated to at most
10; when a score tie pairs a dated with an undated article the sort
instead raises `TypeError`, which escapes to the caller. -/
theorem C3_sorted_top10 (oracle : String → String) (now : Int)
    (completionOrder : List (Option Article) → List (Option Article))
    (feeds : List FeedResult) (query : String)
    (hne : matchedOf oracle now completionOrder feeds query ≠ [])
    (hdates : ∀ a ∈ matchedOf oracle now completionOrder feeds query,
      a.publish_date.isSome = true) :
    ∃ sorted : List Article,
      fetch_and_filter_articles oracle now completionOrder feeds query =
        .ok ((sorted.take 10).map .article) ∧
      sorted.Perm (matchedOf oracle now completionOrder feeds query) ∧
      sorted.Pairwise (fun a b => pyKeyLtB a b = false) := by
  have hcomp := allComparable_of_dates _ hdates
  have hsort := pySortArticles_ok_of_comparable hcomp
  refine ⟨isortD pyKeyLtB (matchedOf oracle now completionOrder feeds query),
    ?_, isortD_perm _ _, ?_⟩
  · unfold fetch_and_filter_articles
    rw [if_neg hne, hsort]
  · refine isortD_pairwise pyKeyLtB pyKeyLtB_asymm _ ?_
    intro a ha b hb c hc h1 h2
    have hl := (allComparable_iff _).mp hcomp
    exact pyKeyLtB_negtrans a b c (hl a ha b hb) (hl b hb c hc) h1 h2

theorem C3_sorted_top10_witness :
    matchedOf wOracle wNow id [Except.ok [wEntry]] "alpha" ≠ [] ∧
    ∃ sorted : List Article,
      fetch_and_filter_articles wOracle wNow id [Except.ok [wEntry]] "alpha" =
        .ok ((sorted.take 10).map .article) ∧
      sorted.Perm (matchedOf wOracle wNow id [Except.ok [wEntry]] "alpha") ∧
      sorted.Pairwise (fun a b => pyKeyLtB a b = false) :=
  ⟨by decide, C3_sorted_top10 wOracle wNow id [Except.ok [wEntry]] "alpha"
    (by decide) (by decide)⟩

/-- One of eleven entries tying on the full sort key (same title, same
timestamp, distinct links). -/
def c7entry (i : Nat) : Entry :=
  ⟨some "alpha", none, some (String.mk (List.replicate i 'x')), some 996400, none⟩

/-- A feed with eleven fully tied entries. -/
def c7feed : List Entry := (List.range 11).map fun i => c7entry (i + 1)

/-- C7 counterexample: eleven articles tie on the full sort key; the
stable sort preserves completion order, so two valid completion orders
of the same run (submission order vs reversed) produce different top-10
link sets — the eleventh link appears in one output and not the
other. -/
theorem C7_completion_order_counterexample :
    fetch_and_filter_articles wOracle wNow id [Except.ok c7feed] "alpha" ≠
      .error () ∧
    fetch_and_filter_articles wOracle wNow List.reverse [Except.ok c7feed]
      "alpha" ≠ .error () ∧
    String.mk (List.replicate 11 'x') ∈
      outLinksOf (fetch_and_filter_articles wOracle wNow List.reverse
        [Except.ok c7feed] "alpha") ∧
    String.mk (List.replicate 11 'x') ∉
      outLinksOf (fetch_and_filter_articles wOracle wNow id
        [Except.ok c7feed] "alpha") := by decide

/-- Key-descending-or-equal: the order the final sort establishes when
it succeeds. -/
def keyGeR (a b : Article) : Prop := pyKeyLtB b a = true ∨ a = b

theorem keyGeR_antisymm : ∀ a b : Article, keyGeR a b → keyGeR b a → a = b := by
  intro a b h1 h2
  rcases h1 with h1 | rfl
  · rcases h2 with h2 | h2
    · rw [pyKeyLtB_asymm b a h1] at h2
      exact absurd h2 (by simp)
    · exact h2.symm
  · rfl

/-- For comparable keys, "not strictly below" means "strictly above or
(when the keys coincide and keys are injective here) equal". -/
theorem keyGeR_of_not_lt (a b : Article) (hc : (pyKeyLt a b).isSome)
    (hf : pyKeyLtB a b = false)
    (hinj : a.relevance_score = b.relevance_score →
      a.publish_date = b.publish_date → a = b) :
    keyGeR a b := by
  unfold pyKeyLtB pyKeyLt at hf
  unfold pyKeyLt at hc
  by_cases hs : a.relevance_score = b.relevance_score
  · rw [if_neg (not_not_intro hs)] at hf hc
    cases ha : a.publish_date with
    | none =>
      cases hb : b.publish_date with
      | none => exact Or.inr (hinj hs (by rw [ha, hb]))
      | some y => rw [ha, hb] at hc; simp at hc
    | some x =>
      cases hb : b.publish_date with
      | none => rw [ha, hb] at hc; simp at hc
      | some y =>
        rw [ha, hb] at hf
        dsimp only at hf
        by_cases hxy : x = y
        · exact Or.inr (hinj hs (by rw [ha, hb, hxy]))
        · rw [if_neg hxy] at hf
          simp at hf
          refine Or.inl ?_
          unfold pyKeyLtB pyKeyLt
          rw [if_neg (not_not_intro hs.symm), hb, ha]
          dsimp only
          rw [if_neg (fun hh => hxy hh.symm)]
          simp
          omega
  · rw [if_pos hs] at hf
    simp at hf
    refine Or.inl ?_
    unfold pyKeyLtB pyKeyLt
    rw [if_pos (fun hh => hs hh.symm : b.relevance_score ≠ a.relevance_score)]
    simp
    omega

/-- When the final sort succeeds on a list with injective keys, its
output is sorted for `keyGeR`. -/
theorem sorted_keyGeR (l : List Article) (hcomp : allComparable l = true)
    (hinj : ∀ a ∈ l, ∀ b ∈ l, a.relevance_score = b.relevance_score →
      a.publish_date = b.publish_date → a = b) :
    List.Sorted keyGeR (isortD pyKeyLtB l) := by
  have hpw : (isortD pyKeyLtB l).Pairwise fun a b => pyKeyLtB a b = false := by
    refine isortD_pairwise pyKeyLtB pyKeyLtB_asymm l ?_
    intro a ha b hb c hc h1 h2
    have hl := (allComparable_iff _).mp hcomp
    exact pyKeyLtB_negtrans a b c (hl a ha b hb) (hl b hb c hc) h1 h2
  refine List.Pairwise.imp_of_mem ?_ hpw
  intro a b ha hb h
  have ha2 : a ∈ l := (isortD_perm pyKeyLtB l).subset ha
  have hb2 : b ∈ l := (isortD_perm pyKeyLtB l).subset hb
  exact keyGeR_of_not_lt a b ((allComparable_iff l).mp hcomp a ha2 b hb2) h
    (hinj a ha2 b hb2)

/-- C7 amended: two runs over the same feeds and query return
identical outputs — in particular the same set of links — for any two
completion orders, provided the matched articles have pairwise
comparable and pairwise distinct sort keys
(relevance_score, publish_date); when several articles tie on the full
key at the top-10 boundary, the completion order decides which of the
tied articles survive the truncation (see the counterexample). -/
theorem C7_order_independent (oracle : String → String) (now : Int)
    (co1 co2 : List (Option Article) → List (Option Article))
    (feeds : List FeedResult) (query : String)
    (hperm1 : (co1 (taskResults oracle now feeds query)).Perm
      (taskResults oracle now feeds query))
    (hperm2 : (co2 (taskResults oracle now feeds query)).Perm
      (taskResults oracle now feeds query))
    (hcomp : allComparable ((taskResults oracle now feeds query).filterMap id) =
      true)
    (hinj : ∀ a ∈ (taskResults oracle now feeds query).filterMap id,
      ∀ b ∈ (taskResults oracle now feeds query).filterMap id,
      a.relevance_score = b.relevance_score →
      a.publish_date = b.publish_date → a = b) :
    fetch_and_filter_articles oracle now co1 feeds query =
      fetch_and_filter_articles oracle now co2 feeds query := by
  have hm1 := matchedOf_perm oracle now co1 feeds query hperm1
  have hm2 := matchedOf_perm oracle now co2 feeds query hperm2
  by_cases hb : (taskResults oracle now feeds query).filterMap id = []
  · have h1 : matchedOf oracle now co1 feeds query = [] := by
      rw [hb] at hm1; exact hm1.eq_nil
    have h2 : matchedOf oracle now co2 feeds query = [] := by
      rw [hb] at hm2; exact hm2.eq_nil
    unfold fetch_and_filter_articles
    rw [if_pos h1, if_pos h2]
  · have h1 : matchedOf oracle now co1 feeds query ≠ [] := by
      intro hh; rw [hh] at hm1; exact hb hm1.symm.eq_nil
    have h2 : matchedOf oracle now co2 feeds query ≠ [] := by
      intro hh; rw [hh] at hm2; exact hb hm2.symm.eq_nil
    have hcomp1 := allComparable_of_perm hm1 hcomp
    have hcomp2 := allComparable_of_perm hm2 hcomp
    have hinj1 : ∀ a ∈ matchedOf oracle now co1 feeds query,
        ∀ b ∈ matchedOf oracle now co1 feeds query,
        a.relevance_score = b.relevance_score →
        a.publish_date = b.publish_date → a = b := by
      intro a ha b hb2
      exact hinj a (hm1.mem_iff.mp ha) b (hm1.mem_iff.mp hb2)
    have hinj2 : ∀ a ∈ matchedOf oracle now co2 feeds query,
        ∀ b ∈ matchedOf oracle now co2 feeds query,
        a.relevance_score = b.relevance_score →
        a.publish_date = b.publish_date → a = b := by
      intro a ha b hb2
      exact hinj a (hm2.mem_iff.mp ha) b (hm2.mem_iff.mp hb2)
    have hsorted1 := sorted_keyGeR _ hcomp1 hinj1
    have hsorted2 := sorted_keyGeR _ hcomp2 hinj2
    have hps : (isortD pyKeyLtB (matchedOf oracle now co1 feeds query)).Perm
        (isortD pyKeyLtB (matchedOf oracle now co2 feeds query)) :=
      ((isortD_perm _ _).trans hm1).trans
        (((isortD_perm _ _).trans hm2).symm)
    have heq : isortD pyKeyLtB (matchedOf oracle now co1 feeds query) =
        isortD pyKeyLtB (matchedOf oracle now co2 feeds query) := by
      haveI : IsAntisymm Article keyGeR := ⟨keyGeR_antisymm⟩
      exact List.eq_of_perm_of_sorted hps hsorted1 hsorted2
    unfold fetch_and_filter_articles
    rw [if_neg h1, if_neg h2, pySortArticles_ok_of_comparable hcomp1,
      pySortArticles_ok_of_comparable hcomp2, heq]

theorem C7_order_independent_witness :
    fetch_and_filter_articles wOracle wNow id [Except.ok [wEntry]] "alpha" =
      fetch_and_filter_articles wOracle wNow List.reverse [Except.ok [wEntry]]
        "alpha" :=
  C7_order_independent wOracle wNow id List.reverse [Except.ok [wEntry]] "alpha"
    (List.Perm.refl _) (List.reverse_perm _) (by decide) (by decide)

end NewsAgent
